import Mathlib

/-!
Verification of the reference-resolution and pagination engine of the
`language-rfc` package (`src/index.js`), via a shallow embedding in Lean.

The document host (Atom editor) is treated as an abstract collaborator, as
the specification directs: `setSelectedBufferRange(p)` at a single point is
modelled as the selection becoming the zero-width range at `p`, and scrolling
has no effect on the cursor.  Documents are lists of line strings.
-/

namespace RFC

/-- A buffer position (`row`, `column`).  Rows and columns are modelled as
integers because the JavaScript arithmetic on them can transiently go
negative (e.g. `linePos.row += editor.rowsPerPage - 2`). -/
structure Pos where
  row : Int
  column : Int
deriving DecidableEq

/-- The content of a page-boundary line: a single form-feed character. -/
def formFeedLine : String := "\x0C"

/-- Line content of buffer row `r`, as `lineTextForBufferRow` returns it.
Out-of-range rows (negative or past the last line) yield `""`; the JS code
only ever compares the result against `"\f"`, and `undefined === "\f"` is
false just as `"" = formFeedLine` is. -/
def lineAt (doc : List String) (r : Int) : String :=
  if r < 0 then "" else doc.getD r.toNat ""

/-- Whether buffer row `r` is a page-boundary line (`"\f" === lineText(r)`). -/
def isBreakRow (doc : List String) (r : Int) : Bool :=
  lineAt doc r = formFeedLine

/-- The rows of all page-boundary lines, in order: the starts of the matches
of `buffer.findAllSync(/^\f$/m)` in `goToPage` (each match starts at column 0
of its row). -/
def breaks (doc : List String) : List Nat :=
  (List.range doc.length).filter fun r => doc.getD r "" = formFeedLine

/-- Number of pages of a document with `B` boundary lines is `B + 1`
(page 1 runs to the first boundary; each later page starts after one). -/
def pageCount (doc : List String) : Nat := (breaks doc).length + 1

/-- The clamping `goToPage` applies to its numeric argument:
`number = Math.max(1, Math.round(+number)); number = Math.min(number, breaks.length)`.
`Math.round` is the identity on the integer arguments considered here. -/
def clampedPage (doc : List String) (n : Int) : Int :=
  min (max 1 n) ((breaks doc).length : Int)

/-- `goToPage` (src/index.js lines 179-202) on a numeric argument: clamp the
page number, then for a clamped value above 1 select the position at row
`breaks[number-2].start.row + rowsPerPage - 2`, column 0; otherwise select
`(0, 0)`.  The cursor lands at the selected position; scrolling is
cursor-irrelevant and not modelled. -/
def goToPage (doc : List String) (rowsPerPage : Int) (n : Int) : Pos :=
  let number := clampedPage doc n
  if 1 < number then
    ⟨(((breaks doc).getD (number - 2).toNat 0 : Nat) : Int) + rowsPerPage - 2, 0⟩
  else ⟨0, 0⟩

/-- A two-page document: one form-feed boundary line (row 1). -/
def docTwoPages : List String := ["a", "\x0C", "b"]

/-- A three-page document: boundaries at rows 1 and 3. -/
def docThreePages : List String := ["p1", "\x0C", "p2", "\x0C", "p3"]

/-- A document with no boundary line at all. -/
def docNoBreaks : List String := ["only", "one", "page"]

/-- C1 counterexample: on a document with N = 2 pages delimited by one
form-feed line (row 1), `goToPage(2)` does not land strictly after boundary
line 0 — the code clamps to `breaks.length` = N - 1 = 1, so `goToPage(2)`
behaves like `goToPage(1)` and places the cursor at row 0, which is not
strictly after row 1. -/
theorem c1_counterexample :
    pageCount docTwoPages = 2 ∧
    breaks docTwoPages = [1] ∧
    goToPage docTwoPages 10 2 = goToPage docTwoPages 10 1 ∧
    goToPage docTwoPages 10 2 = ⟨0, 0⟩ ∧
    ¬ ((1 : Int) < (goToPage docTwoPages 10 2).row) := by
  decide

/-- C1 amended: `goToPage` clamps its argument to `[1, B]` where `B` is the
number of form-feed boundary lines (= pageCount - 1), not to `[1, pageCount]`:
`goToPage(k)` for `k ≥ B` behaves identically to `goToPage(B)`, `goToPage(k)`
for `k < 1` behaves identically to `goToPage(1)`, which places the cursor at
row 0; and for a clamped value `2 ≤ k ≤ B` the cursor is placed at column 0 of
row `breaks[k-2] + rowsPerPage - 2`, which is strictly after boundary `k-2`
whenever `rowsPerPage ≥ 3`, and strictly before boundary `k-1` exactly when
boundary `k-1` is more than `rowsPerPage - 2` rows below boundary `k-2`. -/
theorem c1_amended (doc : List String) (rpp k : Int) :
    (k < 1 → goToPage doc rpp k = goToPage doc rpp 1) ∧
    (((breaks doc).length : Int) ≤ k →
      goToPage doc rpp k = goToPage doc rpp ((breaks doc).length : Int)) ∧
    goToPage doc rpp 1 = ⟨0, 0⟩ ∧
    (2 ≤ k → k ≤ ((breaks doc).length : Int) →
      (goToPage doc rpp k).row
          = (((breaks doc).getD (k - 2).toNat 0 : Nat) : Int) + rpp - 2 ∧
      (goToPage doc rpp k).column = 0 ∧
      (3 ≤ rpp →
        (((breaks doc).getD (k - 2).toNat 0 : Nat) : Int) < (goToPage doc rpp k).row) ∧
      (rpp - 2 < (((breaks doc).getD (k - 1).toNat 0 : Nat) : Int)
            - (((breaks doc).getD (k - 2).toNat 0 : Nat) : Int) →
        (goToPage doc rpp k).row < (((breaks doc).getD (k - 1).toNat 0 : Nat) : Int))) := by
  refine ⟨?_, ?_, ?_, ?_⟩
  · intro hk
    have h1 : clampedPage doc k = clampedPage doc 1 := by
      simp only [clampedPage]; omega
    simp only [goToPage, h1]
  · intro hk
    have h1 : clampedPage doc k = clampedPage doc ((breaks doc).length : Int) := by
      simp only [clampedPage]; omega
    simp only [goToPage, h1]
  · have h1 : ¬ (1 < clampedPage doc 1) := by
      simp only [clampedPage]; omega
    simp only [goToPage, h1, if_false]
  · intro h2 hB
    have h1 : clampedPage doc k = k := by
      simp only [clampedPage]; omega
    have hg : goToPage doc rpp k =
        ⟨(((breaks doc).getD (k - 2).toNat 0 : Nat) : Int) + rpp - 2, 0⟩ := by
      simp only [goToPage, h1, if_pos (show (1 : Int) < k by omega)]
    rw [hg]
    refine ⟨rfl, rfl, ?_, ?_⟩ <;> intro h <;> dsimp only <;> omega

/-- Witness for `c1_amended` at concrete inputs: a three-page document with
boundaries at rows 1 and 3, `rowsPerPage = 10`, evaluated at `k = 0` and
`k = 2`. -/
theorem c1_amended_witness :
    goToPage docThreePages 10 0 = goToPage docThreePages 10 1 ∧
    (goToPage docThreePages 10 2).row = 1 + 10 - 2 := by
  constructor
  · exact (c1_amended docThreePages 10 0).1 (by decide)
  · have h := ((c1_amended docThreePages 10 2).2.2.2 (by decide) (by decide)).1
    rw [h]; decide

/-- C9: `goToPage` never reads the boundary list out of bounds: whenever the
branch indexing position `number - 2` is taken (`number > 1` after clamping),
the clamped number satisfies `2 ≤ number ≤ breaks.length`, so the index
`number - 2` is strictly below `breaks.length`; and on a document with no
boundary line at all, every call places the cursor at row 0, column 0. -/
theorem c9_goToPage_safe (doc : List String) (n : Int) :
    (1 < clampedPage doc n →
      2 ≤ clampedPage doc n ∧
      clampedPage doc n ≤ ((breaks doc).length : Int) ∧
      (clampedPage doc n - 2).toNat < (breaks doc).length) ∧
    (breaks doc = [] → ∀ rpp : Int, goToPage doc rpp n = ⟨0, 0⟩) := by
  constructor
  · intro h
    have hc : clampedPage doc n ≤ ((breaks doc).length : Int) := by
      simp only [clampedPage]; omega
    refine ⟨by omega, hc, ?_⟩
    omega
  · intro hbr rpp
    have h0 : ¬ (1 < clampedPage doc n) := by
      simp only [clampedPage, hbr, List.length_nil, Nat.cast_zero]; omega
    simp only [goToPage, h0, if_false]

/-- Witness for `c9_goToPage_safe`: the in-bounds part on the three-page
document at `n = 5` (clamped to 2), and the no-boundary part at `n = 7`. -/
theorem c9_goToPage_safe_witness :
    (2 ≤ clampedPage docThreePages 5 ∧
      clampedPage docThreePages 5 ≤ ((breaks docThreePages).length : Int) ∧
      (clampedPage docThreePages 5 - 2).toNat < (breaks docThreePages).length) ∧
    goToPage docNoBreaks 10 7 = ⟨0, 0⟩ :=
  ⟨(c9_goToPage_safe docThreePages 5).1 (by decide),
   (c9_goToPage_safe docNoBreaks 7).2 (by decide) 10⟩

/-- The upward scan of `prevPage`
(`for(let i = start; i >= 0; --i) if(!i || "\f" === lineText(i)) ...`):
starting from a non-negative row it always lands, on the largest row
`j ≤ start` that is row 0 or a boundary line. -/
def prevScan (doc : List String) : Nat → Nat
  | 0 => 0
  | r + 1 => if isBreakRow doc ((r + 1 : Nat) : Int) then r + 1 else prevScan doc r

/-- `prevPage` (src/index.js lines 211-219) acting on the single selection
`sel`: take the selection's minimum row, step one row up if that row is itself
a boundary line, then scan upward; landing on row `i` selects the zero-width
range at `(i, 0)` via `goToLine` (whose `offset` argument is the editor here,
so the extra scroll offset is 0).  If the adjusted start is `-1` (cursor on a
boundary line at row 0) the loop body never runs and the selection is left
unchanged. -/
def prevPageSel (doc : List String) (sel : Pos × Pos) : Pos × Pos :=
  let start := min sel.1.row sel.2.row
  let start := if isBreakRow doc start then start - 1 else start
  if start < 0 then sel
  else
    let j := prevScan doc start.toNat
    (⟨(j : Int), 0⟩, ⟨(j : Int), 0⟩)

/-- The downward scan of `nextPage`
(`for(let i = start; i < numRows; ++i) if(i >= numRows - 1 || "\f" === lineText(i)) ...`):
the first `i` in `[start, numRows)` with `i ≥ numRows - 1` or a boundary line,
and `none` (no cursor movement) when `start ≥ numRows`. -/
def nextScan (doc : List String) (numRows i : Int) : Option Int :=
  if i < numRows then
    if numRows - 1 ≤ i ∨ isBreakRow doc i then some i
    else nextScan doc numRows (i + 1)
  else none
termination_by (numRows - i).toNat
decreasing_by omega

/-- `nextPage` (src/index.js lines 228-237) acting on the single selection
`sel`: `numRows` is the last buffer row (`getLastBufferRow()`, i.e. line count
minus one); take the selection's maximum row, step one row down if it is a
boundary line, then scan downward; landing on `i` selects the zero-width range
at `(i, 0)` (the `rowsPerPage - 5` argument of `goToLine` only affects
scrolling).  If the scan finds nothing the selection is unchanged. -/
def nextPageSel (doc : List String) (sel : Pos × Pos) : Pos × Pos :=
  let numRows : Int := (doc.length : Int) - 1
  let start := max sel.1.row sel.2.row
  let start := if isBreakRow doc start then start + 1 else start
  match nextScan doc numRows start with
  | some i => (⟨i, 0⟩, ⟨i, 0⟩)
  | none => sel

/-- The closing delimiter row of the page containing row `r`: the first
boundary row at or after `r`, or the last buffer row if there is none.
(Specification device for stating C5, not part of the JS code.) -/
def pageUB (doc : List String) (r : Nat) : Nat :=
  if h : r < doc.length then
    if isBreakRow doc (r : Int) then r else pageUB doc (r + 1)
  else doc.length - 1
termination_by doc.length - r

theorem prevScan_le (doc : List String) (s : Nat) : prevScan doc s ≤ s := by
  induction s with
  | zero => exact Nat.le_refl 0
  | succ n ih =>
    simp only [prevScan]
    split
    · exact Nat.le_refl _
    · exact Nat.le_succ_of_le ih

theorem prevScan_eq_of_no_break (doc : List String) (t : Nat) :
    ∀ s : Nat, t ≤ s →
      (∀ j : Nat, t < j → j ≤ s → isBreakRow doc (j : Int) = false) →
      prevScan doc s = prevScan doc t := by
  intro s
  induction s with
  | zero =>
    intro h _
    have ht0 : t = 0 := by omega
    rw [ht0]
  | succ n ih =>
    intro hts hnb
    by_cases hEq : t = n + 1
    · rw [hEq]
    · have ht : t ≤ n := by omega
      have hb : isBreakRow doc ((n + 1 : Nat) : Int) = false :=
        hnb (n + 1) (by omega) (Nat.le_refl _)
      simp only [prevScan, hb, Bool.false_eq_true, if_false]
      exact ih ht fun j h1 h2 => hnb j h1 (Nat.le_succ_of_le h2)

theorem nextScan_some (doc : List String) (numRows i j : Int)
    (h : nextScan doc numRows i = some j) :
    i ≤ j ∧ j < numRows ∧ (numRows - 1 ≤ j ∨ isBreakRow doc j = true) ∧
      (∀ m : Int, i ≤ m → m < j → isBreakRow doc m = false ∧ m < numRows - 1) := by
  unfold nextScan at h
  split at h
  · split at h
    · cases h
      refine ⟨le_rfl, by assumption, ?_, fun m h1 h2 => absurd h1 (by omega)⟩
      rename_i hcond
      rcases hcond with hc | hc
      · exact Or.inl hc
      · exact Or.inr hc
    · rename_i hin hcond
      rcases not_or.mp hcond with ⟨h1, h2⟩
      have ih := nextScan_some doc numRows (i + 1) j h
      refine ⟨by omega, ih.2.1, ih.2.2.1, ?_⟩
      intro m hm1 hm2
      by_cases hmi : m = i
      · subst hmi
        exact ⟨Bool.not_eq_true _ ▸ h2, by omega⟩
      · exact ih.2.2.2 m (by omega) hm2
  · cases h
termination_by (numRows - i).toNat
decreasing_by omega

theorem nextScan_none (doc : List String) (numRows i : Int)
    (h : nextScan doc numRows i = none) : numRows ≤ i := by
  unfold nextScan at h
  split at h
  · split at h
    · cases h
    · rename_i hin hcond
      rcases not_or.mp hcond with ⟨h1, h2⟩
      have ih := nextScan_none doc numRows (i + 1) h
      omega
  · rename_i hni
    omega
termination_by (numRows - i).toNat
decreasing_by omega

theorem le_pageUB (doc : List String) (r : Nat) (h : r < doc.length) :
    r ≤ pageUB doc r := by
  unfold pageUB
  rw [dif_pos h]
  split
  · exact Nat.le_refl r
  · by_cases h2 : r + 1 < doc.length
    · exact Nat.le_of_succ_le (le_pageUB doc (r + 1) h2)
    · unfold pageUB
      rw [dif_neg h2]
      omega
termination_by doc.length - r

theorem prevPageSel_cursor (doc : List String) (rowI colA colB : Int)
    (h0 : 0 ≤ rowI) (hb : isBreakRow doc rowI = false) :
    prevPageSel doc (⟨rowI, colA⟩, ⟨rowI, colB⟩) =
      (⟨((prevScan doc rowI.toNat : Nat) : Int), 0⟩,
       ⟨((prevScan doc rowI.toNat : Nat) : Int), 0⟩) := by
  simp only [prevPageSel, min_self, hb, Bool.false_eq_true, if_false]
  rw [if_neg (by omega)]

theorem prevPageSel_cursor_break (doc : List String) (rowI colA colB : Int)
    (h0 : 1 ≤ rowI) (hb : isBreakRow doc rowI = true) :
    prevPageSel doc (⟨rowI, colA⟩, ⟨rowI, colB⟩) =
      (⟨((prevScan doc (rowI - 1).toNat : Nat) : Int), 0⟩,
       ⟨((prevScan doc (rowI - 1).toNat : Nat) : Int), 0⟩) := by
  simp only [prevPageSel, min_self, hb, if_true]
  rw [if_neg (by omega)]

theorem nextPageSel_cursor_some (doc : List String) (rowI colA colB i : Int)
    (hb : isBreakRow doc rowI = false)
    (hsc : nextScan doc ((doc.length : Int) - 1) rowI = some i) :
    nextPageSel doc (⟨rowI, colA⟩, ⟨rowI, colB⟩) = (⟨i, 0⟩, ⟨i, 0⟩) := by
  simp only [nextPageSel, max_self, hb, Bool.false_eq_true, if_false, hsc]

theorem nextPageSel_cursor_none (doc : List String) (rowI colA colB : Int)
    (hb : isBreakRow doc rowI = false)
    (hsc : nextScan doc ((doc.length : Int) - 1) rowI = none) :
    nextPageSel doc (⟨rowI, colA⟩, ⟨rowI, colB⟩) = (⟨rowI, colA⟩, ⟨rowI, colB⟩) := by
  simp only [nextPageSel, max_self, hb, Bool.false_eq_true, if_false, hsc]

/-- C5: with the cursor strictly inside a page (valid buffer row `r` that is
not a boundary line), `nextPage()` followed immediately by `prevPage()`
leaves the cursor within the boundaries of the original page: at or after the
boundary line opening the page (`prevScan doc r`: the nearest boundary row at
or below `r`, or row 0) and at or before the one closing it (`pageUB doc r`:
the nearest boundary row at or above `r`, or the last buffer row).  In fact
the cursor lands exactly on the opening row. -/
theorem c5_next_prev_within_page (doc : List String) (r : Nat) (c : Int)
    (hr : r < doc.length) (hb : isBreakRow doc (r : Int) = false) :
    ((prevPageSel doc (nextPageSel doc (⟨(r : Int), c⟩, ⟨(r : Int), c⟩))).1.row
        = ((prevScan doc r : Nat) : Int)) ∧
    ((prevScan doc r : Nat) : Int) ≤ ((pageUB doc r : Nat) : Int) := by
  have hub : ((prevScan doc r : Nat) : Int) ≤ ((pageUB doc r : Nat) : Int) := by
    have h1 := prevScan_le doc r
    have h2 := le_pageUB doc r hr
    omega
  refine ⟨?_, hub⟩
  cases hsc : nextScan doc ((doc.length : Int) - 1) (r : Int) with
  | none =>
    rw [nextPageSel_cursor_none doc _ c c hb hsc]
    rw [prevPageSel_cursor doc _ c c (by omega) hb]
    simp only [Int.toNat_natCast]
  | some i =>
    have hspec := nextScan_some doc ((doc.length : Int) - 1) (r : Int) i hsc
    obtain ⟨hri, hiN, halt, hnob⟩ := hspec
    rw [nextPageSel_cursor_some doc _ c c i hb hsc]
    cases hbi : isBreakRow doc i with
    | true =>
      have hne : (r : Int) ≠ i := by
        intro hEq
        rw [hEq] at hb
        rw [hb] at hbi
        cases hbi
      have h1i : 1 ≤ i := by omega
      rw [prevPageSel_cursor_break doc i 0 0 h1i hbi]
      have heq : prevScan doc (i - 1).toNat = prevScan doc r := by
        apply prevScan_eq_of_no_break doc r (i - 1).toNat (by omega)
        intro j hj1 hj2
        exact (hnob (j : Int) (by omega) (by omega)).1
      rw [heq]
    | false =>
      rw [prevPageSel_cursor doc i 0 0 (by omega) hbi]
      have heq : prevScan doc i.toNat = prevScan doc r := by
        apply prevScan_eq_of_no_break doc r i.toNat (by omega)
        intro j hj1 hj2
        by_cases hji : (j : Int) = i
        · rw [hji]; exact hbi
        · exact (hnob (j : Int) (by omega) (by omega)).1
      rw [heq]

/-- Witness for `c5_next_prev_within_page` on the three-page document with
the cursor at row 2 (inside page 2), column 0. -/
theorem c5_next_prev_within_page_witness :
    ((prevPageSel docThreePages
        (nextPageSel docThreePages (⟨(2 : Int), 0⟩, ⟨(2 : Int), 0⟩))).1.row
      = ((prevScan docThreePages 2 : Nat) : Int)) ∧
    ((prevScan docThreePages 2 : Nat) : Int) ≤ ((pageUB docThreePages 2 : Nat) : Int) :=
  c5_next_prev_within_page docThreePages 2 0 (by decide) (by decide)

/-! ### Fragment grammar (`executeAnchorAction`) -/

/-- JavaScript `\s` membership, restricted to the ASCII whitespace characters
that can occur in the strings under consideration. -/
def jsIsSpace (c : Char) : Bool :=
  c = ' ' || c = '\t' || c = '\n' || c = '\r' || c = '\x0B' || c = '\x0C'

/-- JavaScript `\w` (word character): ASCII letter, digit or underscore. -/
def isWordChar (c : Char) : Bool :=
  c.isAlphanum || c = '_'

/-- Value of a non-empty string of decimal digits. -/
def digitsToNat (ds : List Char) : Nat :=
  ds.foldl (fun a c => 10 * a + (c.toNat - 48)) 0

/-- The digit run consumed by `parseInt(s, 10)` after sign handling:
`none` when no leading digits (parseInt yields `NaN`). -/
def jsParseIntDigits (cs : List Char) : Option Nat :=
  match cs.takeWhile Char.isDigit with
  | [] => none
  | ds => some (digitsToNat ds)

/-- JavaScript `parseInt(s, 10)`: skip leading whitespace, optional sign,
then a run of decimal digits; `none` models `NaN`. -/
def jsParseIntChars (cs : List Char) : Option Int :=
  match cs.dropWhile jsIsSpace with
  | '-' :: r => (jsParseIntDigits r).map fun n => -(n : Int)
  | '+' :: r => (jsParseIntDigits r).map fun n => (n : Int)
  | r => (jsParseIntDigits r).map fun n => (n : Int)

def jsParseInt (s : String) : Option Int :=
  jsParseIntChars s.data

/-- The `^#?` prefix of both fragment grammars: an optional single leading
`#` is consumed (the regex alternative that skips a present `#` can never
succeed, since no grammar continues with a `#`). -/
def stripHashChar (cs : List Char) : List Char :=
  if cs.headD ' ' = '#' then cs.tail else cs

/-- The `(appendix|section|ref|page)-` alternation of the structural-marker
regex, applied at the start of the fragment. -/
def kindOf (cs : List Char) : Option (String × List Char) :=
  if cs.take 9 = "appendix-".data then some ("appendix", cs.drop 9)
  else if cs.take 8 = "section-".data then some ("section", cs.drop 8)
  else if cs.take 4 = "ref-".data then some ("ref", cs.drop 4)
  else if cs.take 5 = "page-".data then some ("page", cs.drop 5)
  else none

/-- Core of `/^#?(appendix|section|ref|page)-(?!-)(\S+)$/` after the optional
`#` has been handled: the token is everything to the end of the input, and
must be non-empty, not start with `-`, and contain no whitespace. -/
def structCore (cs : List Char) : Option (String × String) :=
  match kindOf cs with
  | some (kind, tok) =>
    if tok.isEmpty then none
    else if tok.headD ' ' = '-' then none
    else if tok.any jsIsSpace then none
    else some (kind, String.mk tok)
  | none => none

def structuralMatch (s : String) : Option (String × String) :=
  structCore (stripHashChar s.data)

/-- Continuation of a line/column-marker match after `L` and its row digits:
the optional `C(\d+)\b` group.  It participates only when the `C` is followed
by at least one digit whose maximal run is followed by a non-word character
or the end of input (`\b`); otherwise the match ends after the row digits,
exactly as the backtracking regex engine behaves.  Returns the 1-indexed
(row, column) digits values — an absent column defaults to the row value, as
`const [, row, column = row]` destructures — together with the last consumed
character and the unconsumed remainder. -/
def matchLCAfterRow (row : Nat) (lastD : Char) (rest2 : List Char) :
    (Nat × Nat) × Char × List Char :=
  match rest2 with
  | 'C' :: rest3 =>
    match rest3.takeWhile Char.isDigit with
    | [] => ((row, row), lastD, rest2)
    | e :: es =>
      let cs2 := e :: es
      if isWordChar ((rest3.drop cs2.length).headD ' ') then ((row, row), lastD, rest2)
      else ((row, digitsToNat cs2), cs2.getLastD '0', rest3.drop cs2.length)
  | _ => ((row, row), lastD, rest2)

/-- One attempted match of the marker body `L(\d+)(?:C(\d+)\b)?` at the head
of `cs`. -/
def matchLC (cs : List Char) : Option ((Nat × Nat) × Char × List Char) :=
  match cs with
  | 'L' :: rest =>
    match rest.takeWhile Char.isDigit with
    | [] => none
    | d :: ds =>
      some (matchLCAfterRow (digitsToNat (d :: ds)) ((d :: ds).getLastD '0')
        (rest.drop (d :: ds).length))
  | _ => none

/-- The position test `(?:^#?|(?<=-))` of the marker regex: a match may begin
at the very start of the input (with an optional `#` consumed) or immediately
after a `-` character (lookbehind). -/
def lmTry (canStart : Bool) (prev : Option Char) (c : Char) (rest : List Char) :
    Option ((Nat × Nat) × Char × List Char) :=
  if canStart then
    if c = '#' then matchLC rest else matchLC (c :: rest)
  else if prev = some '-' then matchLC (c :: rest)
  else none

theorem matchLCAfterRow_length (row : Nat) (lastD : Char) (rest2 : List Char) :
    (matchLCAfterRow row lastD rest2).2.2.length ≤ rest2.length := by
  unfold matchLCAfterRow
  split
  · rename_i rest3
    split
    · exact Nat.le_refl _
    · dsimp only
      split
      · exact Nat.le_refl _
      · simp only [List.length_drop, List.length_cons]
        omega
  · exact Nat.le_refl _

theorem matchLC_length (cs : List Char) (m : Nat × Nat) (ch : Char)
    (rem : List Char) (h : matchLC cs = some (m, ch, rem)) :
    rem.length < cs.length := by
  unfold matchLC at h
  split at h
  · rename_i rest
    split at h
    · exact Option.noConfusion h
    · rename_i d ds hds
      have h2 : matchLCAfterRow (digitsToNat (d :: ds))
          ((d :: ds).getLastD '0') (rest.drop (d :: ds).length) = (m, ch, rem) :=
        Option.some.inj h
      have h3 : rem = (matchLCAfterRow (digitsToNat (d :: ds))
          ((d :: ds).getLastD '0') (rest.drop (d :: ds).length)).2.2 := by
        rw [h2]
      have h4 := matchLCAfterRow_length (digitsToNat (d :: ds))
        ((d :: ds).getLastD '0') (rest.drop (d :: ds).length)
      rw [← h3] at h4
      simp only [List.length_drop, List.length_cons] at h4 ⊢
      omega
  · exact Option.noConfusion h

theorem lmTry_length (canStart : Bool) (prev : Option Char) (c : Char)
    (rest : List Char) (m : Nat × Nat) (ch : Char) (rem : List Char)
    (h : lmTry canStart prev c rest = some (m, ch, rem)) :
    rem.length ≤ rest.length := by
  unfold lmTry at h
  split at h
  · split at h
    · have := matchLC_length rest m ch rem h
      omega
    · have := matchLC_length (c :: rest) m ch rem h
      simp only [List.length_cons] at this
      omega
  · split at h
    · have := matchLC_length (c :: rest) m ch rem h
      simp only [List.length_cons] at this
      omega
    · cases h

/-- The `matchAll` loop of the line/column branch (src/index.js lines
343-348): scan the fragment left to right; at each allowed position attempt a
marker match; collect the matched markers, stopping as soon as two have been
pushed (`if(offsets.push(...) > 1) break`).  After a match the scan resumes
at the first unconsumed character; after a failure it advances one character.
The scan is structural on an explicit `fuel` bounding the input length, so
that it evaluates in the kernel. -/
def lmScan (fuel : Nat) (acc : List (Nat × Nat)) (canStart : Bool)
    (prev : Option Char) (cs : List Char) : List (Nat × Nat) :=
  match fuel, cs with
  | _, [] => acc
  | 0, _ => acc
  | fuel + 1, c :: rest =>
    match lmTry canStart prev c rest with
    | some (m, lastC, rem) =>
      if 1 < acc.length + 1 then acc ++ [m]
      else lmScan fuel (acc ++ [m]) false (some lastC) rem
    | none => lmScan fuel acc false (some c) rest

theorem lmScan_fuel_eq (cs : List Char) (fuel₁ fuel₂ : Nat)
    (acc : List (Nat × Nat)) (b : Bool) (p : Option Char)
    (h₁ : cs.length ≤ fuel₁) (h₂ : cs.length ≤ fuel₂) :
    lmScan fuel₁ acc b p cs = lmScan fuel₂ acc b p cs := by
  match fuel₁, fuel₂, cs with
  | f₁, f₂, [] =>
    cases f₁ <;> cases f₂ <;> rfl
  | 0, f₂, c :: rest =>
    simp only [List.length_cons] at h₁
    omega
  | f₁ + 1, 0, c :: rest =>
    simp only [List.length_cons] at h₂
    omega
  | f₁ + 1, f₂ + 1, c :: rest =>
    simp only [List.length_cons] at h₁ h₂
    simp only [lmScan]
    cases htry : lmTry b p c rest with
    | none =>
      exact lmScan_fuel_eq rest f₁ f₂ acc false (some c) (by omega) (by omega)
    | some x =>
      obtain ⟨m, lastC, rem⟩ := x
      have hlen := lmTry_length b p c rest m lastC rem htry
      by_cases hacc : 1 < acc.length + 1
      · simp only [if_pos hacc]
      · simp only [if_neg hacc]
        exact lmScan_fuel_eq rem f₁ f₂ (acc ++ [m]) false (some lastC)
          (by omega) (by omega)
termination_by cs.length
decreasing_by
  · simp only [List.length_cons]; omega
  · simp only [List.length_cons]; omega

/-- The markers scanned from a fragment by
`input.matchAll(/(?:^#?|(?<=-))L(\d+)(?:C(\d+)\b)?/g)`, at most two. -/
def lineMarkers (s : String) : List (Nat × Nat) :=
  lmScan s.data.length [] true none s.data

/-- 1-indexed marker digits to a 0-indexed buffer position:
`new Point(Math.max(0, row - 1), Math.max(0, column - 1))` (truncated
subtraction on `Nat` coincides with the `Math.max(0, ·)` clamping). -/
def markerToPos (m : Nat × Nat) : Pos :=
  ⟨((m.1 - 1 : Nat) : Int), ((m.2 - 1 : Nat) : Int)⟩

/-- The observable effect of `executeAnchorAction` on its editor. -/
inductive AnchorAction where
  | noop
  | page (n : Int)
  | searchJump (kind : String) (token : String)
  | select (first second : Pos)
deriving DecidableEq

/-- `executeAnchorAction` (src/index.js lines 318-352).  A structural marker
`(appendix|section|ref|page)-<token>` takes priority: `page` delegates the
clamped parsed number to `goToPage` (a non-numeric token is a no-op), and the
other kinds search the buffer with a regex built deterministically from the
kind and the `RegExp.escape`d token — recorded abstractly as
`searchJump kind token` since the search runs host-side.  Otherwise up to two
line/column markers are scanned and, if at least one was found, the range
from the first to the second (defaulting to the first) is selected. -/
def executeAnchorAction (input : String) : AnchorAction :=
  match structuralMatch input with
  | some (kind, token) =>
    if kind = "page" then
      match jsParseInt token with
      | some n => .page (max 0 n)
      | none => .noop
    else .searchJump kind token
  | none =>
    match lineMarkers input with
    | [] => .noop
    | [m] => .select (markerToPos m) (markerToPos m)
    | m1 :: m2 :: _ => .select (markerToPos m1) (markerToPos m2)

/-- C2 counterexample: the fragment `L10` does not select row 9, column 0 —
because `const [, row, column = row]` defaults an absent column capture to
the row digits, it selects the zero-width range at row 9, column 9. -/
theorem c2_counterexample :
    executeAnchorAction "L10" = .select ⟨9, 9⟩ ⟨9, 9⟩ ∧
    executeAnchorAction "L10" ≠ .select ⟨9, 0⟩ ⟨9, 0⟩ := by
  decide

/-- C2 amended: each `L<row>[C<col>]` marker is converted from 1-indexed
input to a 0-indexed position clamped at zero, with an absent column
defaulting to the row number (so `L10` selects the zero-width range at row 9,
column 9 and `L10-L12` the range from (9,9) to (11,11), not column 0);
`L10C5-L10C8` selects row 9 from column 4 to column 7; the first marker is
the selection start and the second (or the first, if absent) the end. -/
theorem c2_amended :
    executeAnchorAction "L10" = .select ⟨9, 9⟩ ⟨9, 9⟩ ∧
    executeAnchorAction "L10-L12" = .select ⟨9, 9⟩ ⟨11, 11⟩ ∧
    executeAnchorAction "L10C5-L10C8" = .select ⟨9, 4⟩ ⟨9, 7⟩ := by
  decide

/-- C10 counterexample: for a fragment that itself begins with `#`,
prepending another `#` changes the behaviour: `#L5` selects the zero-width
range at (4,4), but `##L5` matches neither grammar and is a no-op. -/
theorem c10_counterexample :
    executeAnchorAction "#L5" = .select ⟨4, 4⟩ ⟨4, 4⟩ ∧
    executeAnchorAction ("#" ++ "#L5") = .noop ∧
    executeAnchorAction ("#" ++ "#L5") ≠ executeAnchorAction "#L5" := by
  decide

theorem stripHashChar_hash (cs : List Char) :
    stripHashChar ('#' :: cs) = cs := by
  simp [stripHashChar]

theorem stripHashChar_of_no_hash (cs : List Char) (h : cs.headD ' ' ≠ '#') :
    stripHashChar cs = cs := by
  unfold stripHashChar
  rw [if_neg h]

theorem lmScan_cons (fuel : Nat) (acc : List (Nat × Nat)) (b : Bool)
    (p : Option Char) (c : Char) (rest : List Char) :
    lmScan (fuel + 1) acc b p (c :: rest) =
      match lmTry b p c rest with
      | some (m, lastC, rem) =>
        if 1 < acc.length + 1 then acc ++ [m]
        else lmScan fuel (acc ++ [m]) false (some lastC) rem
      | none => lmScan fuel acc false (some c) rest := rfl

theorem lmScan_start_hash (cs : List Char) (h : cs.headD ' ' ≠ '#') :
    lmScan ('#' :: cs).length [] true none ('#' :: cs)
      = lmScan cs.length [] true none cs := by
  cases cs with
  | nil => rfl
  | cons c rest =>
    have hc : c ≠ '#' := by simpa using h
    have htryL : lmTry true none '#' (c :: rest) = matchLC (c :: rest) := by
      simp [lmTry]
    have htryR : lmTry true none c rest = matchLC (c :: rest) := by
      simp [lmTry, hc]
    show lmScan (rest.length + 1 + 1) [] true none ('#' :: c :: rest)
      = lmScan (rest.length + 1) [] true none (c :: rest)
    conv_lhs => rw [lmScan_cons]
    conv_rhs => rw [lmScan_cons]
    rw [htryL, htryR]
    cases hm : matchLC (c :: rest) with
    | none =>
      dsimp only
      have htry2 : lmTry false (some '#') c rest = none := by
        simp [lmTry]
      conv_lhs => rw [lmScan_cons, htry2]
    | some x =>
      obtain ⟨m, lastC, rem⟩ := x
      have hlen := matchLC_length (c :: rest) m lastC rem hm
      simp only [List.length_cons] at hlen
      dsimp only
      rw [if_neg (by simp), if_neg (by simp)]
      exact lmScan_fuel_eq rem (rest.length + 1) rest.length ([] ++ [m])
        false (some lastC) (by omega) (by omega)

/-- C10 amended: prepending a single `#` to a fragment that does not itself
begin with `#` leaves `executeAnchorAction`'s behaviour unchanged (a single
leading `#` is accepted and ignored by both grammars); the equivalence fails
for fragments already beginning with `#` (see the counterexample). -/
theorem c10_amended (f : String) (h : f.data.headD ' ' ≠ '#') :
    executeAnchorAction ("#" ++ f) = executeAnchorAction f := by
  have hdata : ("#" ++ f).data = '#' :: f.data := by
    simp [String.data_append]
  have hstruct : structuralMatch ("#" ++ f) = structuralMatch f := by
    unfold structuralMatch
    rw [hdata, stripHashChar_hash, stripHashChar_of_no_hash f.data h]
  have hmark : lineMarkers ("#" ++ f) = lineMarkers f := by
    unfold lineMarkers
    rw [hdata]
    exact lmScan_start_hash f.data h
  unfold executeAnchorAction
  rw [hstruct, hmark]

/-- Witness for `c10_amended` at the fragment `L7C2`. -/
theorem c10_amended_witness :
    executeAnchorAction ("#" ++ "L7C2") = executeAnchorAction "L7C2" :=
  c10_amended "L7C2" (by decide)

/-! ### URI handling (`handleURI`) -/

/-- Everything before the first `#`, and — when a `#` is present — everything
after it (the `replace(/#.*/ ...)` split applied to the basename). -/
def splitAtHash : List Char → List Char × Option (List Char)
  | [] => ([], none)
  | '#' :: rest => ([], some rest)
  | c :: rest =>
    let (a, b) := splitAtHash rest
    (c :: a, b)

/-- Modelled external collaborator: `path.basename` — the part of the string
after the last `/`, ignoring trailing slashes. -/
def basenameChars (cs : List Char) : List Char :=
  let cs := (cs.reverse.dropWhile (fun c => c = '/')).reverse
  cs.foldl (fun acc c => if c = '/' then [] else acc ++ [c]) []

/-- The fields of Node's legacy `url.parse` result that `handleURI` reads. -/
structure ParsedURL where
  protocol : Option String
  hostname : Option String
  path : Option String
  hash : Option String
deriving DecidableEq

/-- Split a leading `scheme:` off a URI (scheme = non-empty run of ASCII
letters followed by `:`). -/
def schemeSplit (cs : List Char) : Option (List Char × List Char) :=
  match cs.takeWhile Char.isAlpha with
  | [] => none
  | letters =>
    match cs.drop letters.length with
    | ':' :: rest => some (letters, rest)
    | _ => none

/-- Modelled external collaborator: Node's legacy `url.parse`, restricted to
the URI shapes that can reach `handleURI`: an opaque `scheme:rest` form,
a `scheme://host/path` form, or a scheme-less string, each with an optional
`#fragment`.  `hash` keeps its leading `#` as `url.parse` does; an absent
component is `none` (JS `null`). -/
def parseURLSimple (s : String) : ParsedURL :=
  let (beforeHash, hashPart) := splitAtHash s.data
  let hash : Option String := hashPart.map fun h => String.mk ('#' :: h)
  match schemeSplit beforeHash with
  | none =>
    { protocol := none, hostname := none,
      path := if beforeHash.isEmpty then none else some (String.mk beforeHash), hash }
  | some (letters, rest) =>
    let proto := String.mk ((letters.map Char.toLower) ++ [':'])
    match rest with
    | '/' :: '/' :: hostAndPath =>
      let host := hostAndPath.takeWhile (fun c => c ≠ '/')
      let rest2 := hostAndPath.drop host.length
      { protocol := some proto,
        hostname := some (String.mk (host.map Char.toLower)),
        path := if rest2.isEmpty then none else some (String.mk rest2), hash }
    | _ =>
      { protocol := some proto, hostname := none,
        path := if rest.isEmpty then none else some (String.mk rest), hash }

/-- `name.replace(/^\//, "")`: remove one leading slash. -/
def stripLeadSlash (s : String) : String :=
  match s.data with
  | '/' :: r => String.mk r
  | _ => s

/-- `uri.hostname || uri.path?.replace(/^\//, "")`: the hostname when truthy
(non-null, non-empty), else the path with one leading slash removed, else
`none` (JS `undefined`, which `parseInt` turns into `NaN`). -/
def hostOrPath (u : ParsedURL) : Option String :=
  match u.hostname with
  | some h => if h = "" then u.path.map stripLeadSlash else some h
  | none => u.path.map stripLeadSlash

/-- The test `/^rfc:\d+/.test(name)`. -/
def isRfcColonName (cs : List Char) : Bool :=
  cs.take 4 = "rfc:".data && ((cs.drop 4).headD ' ').isDigit

/-- The RFC-number/anchor extraction of `handleURI` (src/index.js lines
281-290): strip any `#...` suffix from the URI's basename to obtain `name`
and a provisional anchor; if the URI has no scheme and `name` matches
`/^rfc:\d+/`, the number is parsed from `name.slice(4)`; otherwise, if the
scheme is `rfc:`, the anchor becomes `uri.hash` (the JS value `null`
stringifies to `"null"` once it reaches `executeAnchorAction`, so an absent
hash is modelled as the string `"null"`), and the number is parsed from the
hostname or the path.  `none` models `rfc` remaining non-finite (`NaN`),
upon which the handler silently declines. -/
def parseRFCURI (uri : String) : Option (Int × String) :=
  let b := basenameChars uri.data
  let (nameCs, anchorCs) := splitAtHash b
  let anchorFromName := String.mk (anchorCs.getD [])
  let u := parseURLSimple uri
  if u.protocol.isNone && isRfcColonName nameCs then
    (jsParseIntChars (nameCs.drop 4)).map fun n => (n, anchorFromName)
  else if u.protocol = some "rfc:" then
    let anchor := match u.hash with | some h => h | none => "null"
    match hostOrPath u with
    | none => none
    | some s => (jsParseInt s).map fun n => (n, anchor)
  else none

/-- The externally visible effects of one `handleURI` invocation. -/
inductive Action where
  | mkdirRec (dir : String)
  | fetchURL (url : String)
  | writeFile (path : String) (bytes : List Nat)
  | openDoc (path : String)
  | applyAnchor (anchor : String) (path : String)
  | notifyError (msg : String)
deriving DecidableEq

/-- The world `handleURI` interacts with: the configured (tilde-expanded)
RFC directory, the paths open in the workspace's active pane, the local
filesystem (files with their bytes, and existing directories), the two
download settings, and the network (URL to fetched bytes, `none` modelling a
failed fetch). -/
structure Env where
  rfcDirectory : Option String
  openPaths : List String
  files : List (String × List Nat)
  dirs : List String
  downloadEnabled : Bool
  downloadSource : String
  fetchResult : String → Option (List Nat)

/-- `join(rfcDirectory, "rfc" + rfc + ".txt")` for a directory path without
trailing slash. -/
def rfcPath (dir : String) (rfc : Int) : String :=
  dir ++ "/rfc" ++ toString rfc ++ ".txt"

/-- `replaceAll("#", rfc)` applied to the download-source template. -/
def jsReplaceHash (cs repl : List Char) : List Char :=
  match cs with
  | [] => []
  | '#' :: rest => repl ++ jsReplaceHash rest repl
  | c :: rest => c :: jsReplaceHash rest repl

def downloadURL (source : String) (rfc : Int) : String :=
  String.mk (jsReplaceHash source.data (toString rfc).data)

/-- The resolution pipeline of `handleURI` after a finite RFC number was
parsed (src/index.js lines 292-308), as its sequence of externally visible
actions.  In order: an already-open document only receives the anchor
action; an existing local file is opened and receives the anchor action;
with downloads disabled nothing happens; otherwise the cache directory is
created if absent, the bytes are fetched from the substituted download URL
and written to the target path (`downloadFile`, lines 266-270), the document
is opened and the anchor applied — or, when the fetch fails, an error
notification is shown instead. -/
def resolveRFC (env : Env) (dir : String) (rfc : Int) (anchor : String) :
    List Action :=
  let path := rfcPath dir rfc
  if path ∈ env.openPaths then [.applyAnchor anchor path]
  else if (env.files.lookup path).isSome then
    [.openDoc path, .applyAnchor anchor path]
  else if !env.downloadEnabled then []
  else
    let pre : List Action := if dir ∈ env.dirs then [] else [.mkdirRec dir]
    let url := downloadURL env.downloadSource rfc
    match env.fetchResult url with
    | some bytes =>
      pre ++ [.fetchURL url, .writeFile path bytes, .openDoc path,
        .applyAnchor anchor path]
    | none => pre ++ [.fetchURL url, .notifyError "Error caught while downloading RFC"]

/-- `handleURI` (src/index.js lines 279-309): nothing happens when the RFC
directory is unconfigured or when no finite RFC number can be parsed from the
URI; otherwise the resolution pipeline runs. -/
def handleURIActions (env : Env) (uri : String) : List Action :=
  match env.rfcDirectory with
  | none => []
  | some dir =>
    match parseRFCURI uri with
    | none => []
    | some (rfc, anchor) => resolveRFC env dir rfc anchor

/-- Environment in which `rfc0.txt` exists in the cache directory. -/
def envOpen0 : Env :=
  { rfcDirectory := some "/rfcs"
    openPaths := []
    files := [("/rfcs/rfc0.txt", [104, 105])]
    dirs := ["/rfcs"]
    downloadEnabled := false
    downloadSource := "https://example.org/rfc#.txt"
    fetchResult := fun _ => none }

/-- C3 counterexample: the URI `rfc:0` carries the non-positive number 0,
which the claim says is declined exactly like a non-numeric one; but the
handler's only guard is `isFinite(rfc)`, so `rfc:0` proceeds — here it
opens the cached `rfc0.txt` and applies the (absent) anchor, rather than
performing no action at all. -/
theorem c3_counterexample :
    handleURIActions envOpen0 "rfc:0" =
      [.openDoc "/rfcs/rfc0.txt", .applyAnchor "null" "/rfcs/rfc0.txt"] ∧
    handleURIActions envOpen0 "rfc:0" ≠ [] := by
  decide

/-- C3 amended: only an RFC number that fails to parse as a finite number
aborts the resolution as a silent no-op; a non-positive finite number (such
as 0 in `rfc:0`) is not rejected — the pipeline proceeds with it (forming
the path `rfc0.txt` and acting on it). -/
theorem c3_amended :
    (∀ (env : Env) (uri : String),
      parseRFCURI uri = none → handleURIActions env uri = []) ∧
    handleURIActions envOpen0 "rfc:0" ≠ [] := by
  constructor
  · intro env uri h
    unfold handleURIActions
    cases env.rfcDirectory with
    | none => rfl
    | some dir => rw [h]
  · decide

/-- Witness for `c3_amended`: a URI with no parseable RFC number is a no-op
in a concrete environment. -/
theorem c3_amended_witness :
    handleURIActions envOpen0 "not-an-rfc" = [] :=
  c3_amended.1 envOpen0 "not-an-rfc" (by decide)

/-- C6: with the RFC file neither open nor cached and downloads disabled by
configuration, resolving an `rfc:` URI performs no action at all: no
directory or file is created, nothing is fetched, no document is opened and
no error is raised. -/
theorem c6_download_disabled_noop (env : Env) (uri dir : String) (rfc : Int)
    (anchor : String)
    (hdir : env.rfcDirectory = some dir)
    (hparse : parseRFCURI uri = some (rfc, anchor))
    (hopen : rfcPath dir rfc ∉ env.openPaths)
    (hfile : env.files.lookup (rfcPath dir rfc) = none)
    (hdl : env.downloadEnabled = false) :
    handleURIActions env uri = [] := by
  unfold handleURIActions
  rw [hdir, hparse]
  dsimp only
  unfold resolveRFC
  dsimp only
  rw [if_neg hopen]
  rw [hfile]
  rw [if_neg (by simp)]
  rw [if_pos (by simp [hdl])]

/-- Environment with an empty cache and downloads disabled. -/
def envDisabled : Env :=
  { rfcDirectory := some "/rfcs"
    openPaths := []
    files := []
    dirs := []
    downloadEnabled := false
    downloadSource := "https://example.org/rfc#.txt"
    fetchResult := fun _ => none }

/-- Witness for `c6_download_disabled_noop`: requesting `rfc:9999` with
`rfc9999.txt` absent and downloads disabled is a complete no-op. -/
theorem c6_download_disabled_noop_witness :
    handleURIActions envDisabled "rfc:9999" = [] :=
  c6_download_disabled_noop envDisabled "rfc:9999" "/rfcs" 9999 "null"
    rfl (by decide) (by decide) rfl rfl

/-- C7: with the file absent locally, downloads enabled, and the fetch of the
`#`-substituted download URL returning bytes `bytes`, resolution creates the
cache directory if needed, fetches, writes exactly `bytes` to
`<cacheDir>/rfc<N>.txt`, and opens the document afterwards (then applies the
anchor action). -/
theorem c7_download_flow (env : Env) (uri dir : String) (rfc : Int)
    (anchor : String) (bytes : List Nat)
    (hdir : env.rfcDirectory = some dir)
    (hparse : parseRFCURI uri = some (rfc, anchor))
    (hopen : rfcPath dir rfc ∉ env.openPaths)
    (hfile : env.files.lookup (rfcPath dir rfc) = none)
    (hdl : env.downloadEnabled = true)
    (hfetch : env.fetchResult (downloadURL env.downloadSource rfc) = some bytes) :
    handleURIActions env uri =
      (if dir ∈ env.dirs then [] else [.mkdirRec dir]) ++
      [.fetchURL (downloadURL env.downloadSource rfc),
       .writeFile (rfcPath dir rfc) bytes,
       .openDoc (rfcPath dir rfc),
       .applyAnchor anchor (rfcPath dir rfc)] := by
  unfold handleURIActions
  rw [hdir, hparse]
  dsimp only
  unfold resolveRFC
  dsimp only
  rw [if_neg hopen]
  rw [hfile]
  rw [if_neg (by simp)]
  rw [if_neg (by simp [hdl])]
  rw [hfetch]

/-- Environment with an empty cache and downloads enabled; every fetch
returns the bytes `[82, 70, 67]`. -/
def envEnabled : Env :=
  { rfcDirectory := some "/rfcs"
    openPaths := []
    files := []
    dirs := []
    downloadEnabled := true
    downloadSource := "https://example.org/rfc#.txt"
    fetchResult := fun _ => some [82, 70, 67] }

/-- Witness for `c7_download_flow`: requesting `rfc:2223` with an empty cache
creates the directory, fetches `https://example.org/rfc2223.txt`, writes the
fetched bytes to `/rfcs/rfc2223.txt` and opens it. -/
theorem c7_download_flow_witness :
    handleURIActions envEnabled "rfc:2223" =
      [.mkdirRec "/rfcs",
       .fetchURL "https://example.org/rfc2223.txt",
       .writeFile "/rfcs/rfc2223.txt" [82, 70, 67],
       .openDoc "/rfcs/rfc2223.txt",
       .applyAnchor "null" "/rfcs/rfc2223.txt"] := by
  have h := c7_download_flow envEnabled "rfc:2223" "/rfcs" 2223 "null"
    [82, 70, 67] rfl (by decide) (by decide) rfl rfl rfl
  rw [h]
  decide

/-! ### Directory-service user records (`loadUserList` / `parseDSRecord`) -/

/-- A child element of the dscl plist's top-level `<dict>`: a `<key>`, a
`<string>` or `<array>` value element (carrying the text contents of its
*element* children — a plain `<string>text</string>` has none), or an element
with any other tag. -/
inductive PlistNode where
  | key (text : String)
  | str (childTexts : List String)
  | arr (childTexts : List String)
  | other (tag : String)
deriving DecidableEq

/-- A JavaScript value stored in a user record. -/
inductive JSVal where
  | null
  | vstr (s : String)
  | vlist (l : List String)
  | vnum (n : Option Int)
deriving DecidableEq

/-- `value = Array.from(el.children).map(el => el.textContent);
if(value.length < 2) [value = null] = value;` — zero elements collapse to
`null`, one to the single string, two or more stay a list.  (The `<string>`
case's `value = [el]` is dead: the missing `break` falls through into the
`<array>` handling.) -/
def valueOfChildren : List String → JSVal
  | [] => .null
  | [x] => .vstr x
  | l => .vlist l

/-- `parseInt` applied to a stored value: `null` stringifies to `"null"`
(`NaN`), an array joins with `,`. -/
def jsParseIntVal : JSVal → Option Int
  | .null => none
  | .vstr s => jsParseInt s
  | .vlist l => jsParseInt (String.intercalate "," l)
  | .vnum n => n

/-- String coercion of a stored value, as used in the thrown message. -/
def jsValToString : JSVal → String
  | .null => "null"
  | .vstr s => s
  | .vlist l => String.intercalate "," l
  | .vnum _ => ""

/-- JavaScript `String.prototype.trim` (ASCII whitespace). -/
def jsTrim (s : String) : String :=
  String.mk (((s.data.dropWhile jsIsSpace).reverse.dropWhile jsIsSpace).reverse)

/-- `key.replace(/^dsAttrTypeStandard:/, "")`. -/
def stripDsStandard (s : String) : String :=
  if s.data.take 19 = "dsAttrTypeStandard:".data then String.mk (s.data.drop 19)
  else s

/-- JS object property assignment `user[key] = value`, keyed insertion order. -/
def upsert (l : List (String × JSVal)) (k : String) (v : JSVal) :
    List (String × JSVal) :=
  match l with
  | [] => [(k, v)]
  | (k0, v0) :: rest => if k0 = k then (k, v) :: rest else (k0, v0) :: upsert rest k v

/-- The `switch(key || null)` step of `parseDSRecord`: rename the known
attributes (parsing the two IDs as integers), keep unknown truthy keys
verbatim, and throw when no truthy key is pending. -/
def dsAssign (user : List (String × JSVal)) (pending : Option String)
    (value : JSVal) : Except String (List (String × JSVal)) :=
  let keyJS : Option String :=
    match pending with
    | some s => if s = "" then none else some s
    | none => none
  match keyJS with
  | none => .error ("No key defined for value: " ++ jsValToString value)
  | some "PrimaryGroupID" => .ok (upsert user "gid" (.vnum (jsParseIntVal value)))
  | some "UniqueID" => .ok (upsert user "uid" (.vnum (jsParseIntVal value)))
  | some "NFSHomeDirectory" => .ok (upsert user "home" value)
  | some "UserShell" => .ok (upsert user "shell" value)
  | some "RealName" => .ok (upsert user "gecos" value)
  | some k => .ok (upsert user k value)

/-- The element walk of `parseDSRecord` (src/index.js lines 463-502): each
`<key>` (trimmed, standard prefix stripped) must be followed by one value
element; a `<key>` while one is already pending, a value element with an
unsupported tag, and a value with no pending key each throw a `SyntaxError`
or `TypeError` — modelled as `Except.error` carrying the message. -/
def parseDSRecordGo (user : List (String × JSVal)) (pending : Option String) :
    List PlistNode → Except String (List (String × JSVal))
  | [] => .ok user
  | .key t :: rest =>
    if pending.isSome then .error "<key> element found where value expected"
    else parseDSRecordGo user (some (stripDsStandard (jsTrim t))) rest
  | .other tag :: _ => .error ("Unsupported value type: " ++ tag)
  | .str children :: rest =>
    match dsAssign user pending (valueOfChildren children) with
    | .error e => .error e
    | .ok user2 => parseDSRecordGo user2 none rest
  | .arr children :: rest =>
    match dsAssign user pending (valueOfChildren children) with
    | .error e => .error e
    | .ok user2 => parseDSRecordGo user2 none rest

/-- `parseDSRecord(source, userName)`: walk the plist record's elements with
the user record seeded by the login name. -/
def parseDSRecord (els : List PlistNode) (userName : String) :
    Except String (List (String × JSVal)) :=
  parseDSRecordGo [("name", .vstr userName)] none els

/-- Result of one `spawnSync("dscl", ...)` invocation: exit status, standard
error, and the parsed-plist elements of its standard output (`none` when it
produced none). -/
structure DSResult where
  status : Int
  stderr : String
  stdout : Option (List PlistNode)
deriving DecidableEq

/-- The message `console.error`d for a failed dscl invocation:
`stderr || "dscl: exited with error code " + dscl.status` after trimming. -/
def dsclLogMsg (r : DSResult) : String :=
  if jsTrim r.stderr = "" then "dscl: exited with error code " ++ toString r.status
  else jsTrim r.stderr

/-- The directory-service merge loop of `loadUserList` (src/index.js lines
434-452) over the users enumerated by `dscl . -list /Users`: a user already
present is skipped; an invocation exiting with nonzero status has its stderr
logged and is skipped; otherwise, when there is output, the record is parsed
by `parseDSRecord` and added with the user count incremented.  The JS wraps
none of this in try/catch, so an exception thrown by `parseDSRecord`
propagates out of `loadUserList` — modelled by the `Except` short-circuit. -/
def loadUserListDS (users : List (String × List (String × JSVal)))
    (count : Nat) (logs : List String) :
    List (String × DSResult) →
      Except String (List (String × List (String × JSVal)) × Nat × List String)
  | [] => .ok (users, count, logs)
  | (u, r) :: rest =>
    if (users.lookup u).isSome then loadUserListDS users count logs rest
    else if r.status ≠ 0 then
      loadUserListDS users count (logs ++ [dsclLogMsg r]) rest
    else
      match r.stdout with
      | none => loadUserListDS users count logs rest
      | some els =>
        match parseDSRecord els u with
        | .error e => .error e
        | .ok userRec => loadUserListDS (users ++ [(u, userRec)]) (count + 1) logs rest

/-- A well-formed dscl record for user `alice`. -/
def goodRecordEls : List PlistNode :=
  [.key "dsAttrTypeStandard:UniqueID", .arr ["501"],
   .key "dsAttrTypeStandard:NFSHomeDirectory", .arr ["/Users/alice"]]

/-- A malformed dscl record: a value element with an unsupported tag. -/
def badRecordEls : List PlistNode :=
  [.key "NFSHomeDirectory", .other "data"]

/-- The enumerated users: `alice` parses fine, `bob`'s record is malformed. -/
def dsRecordsC4 : List (String × DSResult) :=
  [("alice", ⟨0, "", some goodRecordEls⟩), ("bob", ⟨0, "", some badRecordEls⟩)]

/-- C4 counterexample: when `bob`'s record fails to parse, the user-list
construction does not log-and-skip it and return the mapping built from the
remaining records — the `TypeError` thrown by `parseDSRecord` propagates and
aborts the whole listing, discarding `alice`'s already-parsed record. -/
theorem c4_counterexample :
    parseDSRecord badRecordEls "bob" = .error "Unsupported value type: data" ∧
    loadUserListDS [] 0 [] dsRecordsC4 = .error "Unsupported value type: data" :=
  ⟨rfl, rfl⟩

/-- C4 amended: in the directory-service loop, a *failed dscl invocation*
(nonzero exit status) is logged and only that record skipped, the loop
continuing with the remaining records; but a record whose *parse* fails is
not caught: `parseDSRecord`'s exception propagates and aborts the whole
user-list construction. -/
theorem c4_amended (users : List (String × List (String × JSVal)))
    (count : Nat) (logs : List String) (u : String) (r : DSResult)
    (rest : List (String × DSResult))
    (habsent : users.lookup u = none) :
    (r.status ≠ 0 →
      loadUserListDS users count logs ((u, r) :: rest)
        = loadUserListDS users count (logs ++ [dsclLogMsg r]) rest) ∧
    (∀ (els : List PlistNode) (e : String),
      r.status = 0 → r.stdout = some els → parseDSRecord els u = .error e →
      loadUserListDS users count logs ((u, r) :: rest) = .error e) := by
  constructor
  · intro hst
    rw [loadUserListDS, habsent]
    simp only [Option.isSome_none, Bool.false_eq_true, if_false]
    rw [if_pos hst]
  · intro els e hst hout hparse
    rw [loadUserListDS, habsent]
    simp only [Option.isSome_none, Bool.false_eq_true, if_false]
    rw [if_neg (by simp [hst]), hout]
    dsimp only
    rw [hparse]

/-- A dscl invocation that exited with status 56 and no output. -/
def dsFailRec : DSResult := ⟨56, "", none⟩

/-- Witness for `c4_amended`: the status-failure skip at user `carol`, and
the parse-failure abort at user `bob`. -/
theorem c4_amended_witness :
    (loadUserListDS [] 0 [] [("carol", dsFailRec)]
      = loadUserListDS [] 0 ([] ++ [dsclLogMsg dsFailRec]) []) ∧
    loadUserListDS [] 0 [] [("bob", ⟨0, "", some badRecordEls⟩)]
      = .error "Unsupported value type: data" :=
  ⟨(c4_amended [] 0 [] "carol" dsFailRec [] rfl).1 (by decide),
   (c4_amended [] 0 [] "bob" ⟨0, "", some badRecordEls⟩ [] rfl).2 badRecordEls
     "Unsupported value type: data" rfl rfl rfl⟩

/-! ### Tilde expansion (`expandPath`) -/

/-- Split a character list at `/` separators. -/
def splitSlash : List Char → List (List Char)
  | [] => [[]]
  | '/' :: rest => [] :: splitSlash rest
  | c :: rest =>
    match splitSlash rest with
    | [] => [[c]]
    | s :: ss => (c :: s) :: ss

/-- Segment resolution of POSIX `path.normalize`: drop empty and `.`
segments, resolve `..` against the accumulated output (kept at an absolute
path's root, preserved at a relative path's start). -/
def normSegs (acc : List (List Char)) (isAbs : Bool) :
    List (List Char) → List (List Char)
  | [] => acc
  | seg :: rest =>
    if seg = [] ∨ seg = ['.'] then normSegs acc isAbs rest
    else if seg = ['.', '.'] then
      match acc.getLast? with
      | some l =>
        if l = ['.', '.'] then normSegs (acc ++ [seg]) isAbs rest
        else normSegs acc.dropLast isAbs rest
      | none => if isAbs then normSegs acc isAbs rest else normSegs [seg] isAbs rest
    else normSegs (acc ++ [seg]) isAbs rest

/-- Modelled external collaborator: POSIX `path.normalize` — resolve `.` and
`..`, collapse repeated separators, preserve one trailing slash; empty input
normalizes to `.`. -/
def jsNormalize (s : String) : String :=
  let cs := s.data
  if cs.isEmpty then "."
  else
    let isAbs := cs.headD ' ' = '/'
    let hasTrail := cs.getLastD ' ' = '/'
    let outSegs := normSegs [] isAbs (splitSlash cs)
    let core := (if isAbs then "/" else "")
      ++ String.intercalate "/" (outSegs.map String.mk)
    let core := if core = "" then (if isAbs then "/" else ".") else core
    if hasTrail ∧ core.data.getLastD ' ' ≠ '/' then core ++ "/" else core

/-- The `.replace(/\/+$/, "")` applied after normalizing. -/
def stripTrailingSlashes (s : String) : String :=
  String.mk (s.data.reverse.dropWhile (fun c => c = '/')).reverse

/-- Modelled external collaborator: POSIX `path.join` of two parts —
concatenate the non-empty parts with `/` and normalize. -/
def pathJoin (a b : String) : String :=
  if a = "" ∧ b = "" then "."
  else jsNormalize (if a = "" then b else if b = "" then a else a ++ "/" ++ b)

/-- The test `/^~(?!-|\+)([^\/\\]+)/` with its first capture (`RegExp.$1`):
for a path starting with `~`, the maximal non-empty run of characters other
than `/` and `\` following it, provided it does not start with `-` or `+`. -/
def tildeName (s : String) : Option String :=
  match s.data with
  | '~' :: rest =>
    match rest.takeWhile (fun c => !(c = '/' || c = '\\')) with
    | [] => none
    | c :: name =>
      if c = '-' ∨ c = '+' then none else some (String.mk (c :: name))
  | _ => none

/-- `path.indexOf("/")` as an optional 0-based index. -/
def idxSlash : List Char → Option Nat
  | [] => none
  | '/' :: _ => some 0
  | _ :: rest => (idxSlash rest).map (fun n => n + 1)

/-- `String.prototype.slice(i)`, including the negative-index convention of
counting from the end. -/
def jsSliceFrom (s : String) (i : Int) : String :=
  if 0 ≤ i then String.mk (s.data.drop i.toNat)
  else String.mk (s.data.drop (s.data.length - min s.data.length i.natAbs))

/-- `path.slice(path.indexOf("/"))`: from the first slash when one exists —
otherwise `slice(-1)`, the *last character* of the path. -/
def sliceFromSlash (s : String) : String :=
  match idxSlash s.data with
  | some i => jsSliceFrom s (i : Int)
  | none => jsSliceFrom s (-1)

/-- The world `expandPath` reads: `process.env.HOME`, the memoized user list
mapping login names to home directories (`none` models `loadUserList` having
returned `null`), and the directories existing on disk (for `isDir`). -/
structure PathEnv where
  home : Option String
  userList : Option (List (String × String))
  dirs : List String

/-- Result of `expandPath`: a returned string, the JS value `undefined`
(`~` with `HOME` unset), or a thrown `TypeError`. -/
inductive PathResult where
  | ok (s : String)
  | undef
  | typeError (msg : String)
deriving DecidableEq

/-- `expandPath` (src/index.js lines 363-379).  Empty input returns `""`;
otherwise the path is normalized and trailing slashes stripped.  `~` alone
returns `HOME`.  A `~/` prefix joins `HOME` with the remainder.  A `~<name>`
prefix (name not starting with `-`/`+`) looks `<name>` up in the user list —
the `in` operator throws a `TypeError` when `loadUserList` returned `null` —
and, when the user exists and their home directory exists on disk,
substitutes `join(home, path.slice(path.indexOf("/")))`.  Note that
`indexOf("/")` is `-1` for a slash-less path, making the sliced remainder
the path's last character rather than the empty string.  Any other path is
returned (normalized) unchanged. -/
def expandPath (env : PathEnv) (path : String) : PathResult :=
  if path = "" then .ok ""
  else
    let p := stripTrailingSlashes (jsNormalize path)
    if p = "~" then
      match env.home with
      | some h => .ok h
      | none => .undef
    else if p.data.take 2 = "~/".data then
      match env.home with
      | some h => .ok (pathJoin h (String.mk (p.data.drop 2)))
      | none => .typeError "Path must be a string"
    else
      match tildeName p with
      | some user =>
        match env.userList with
        | none => .typeError "Cannot use in operator to search in null"
        | some ul =>
          match ul.lookup user with
          | some home =>
            if home ∈ env.dirs then .ok (pathJoin home (sliceFromSlash p))
            else .ok p
          | none => .ok p
      | none => .ok p

/-- A lookup environment in which user `root` exists with home `/var/root`,
which is a directory on disk. -/
def envTilde : PathEnv :=
  { home := some "/root"
    userList := some [("root", "/var/root")]
    dirs := ["/var/root"] }

/-- C8 (code bug): `expandPath("~root")` should substitute the home
directory for the whole `~root` prefix (its own jsdoc example says
`expandPath("~root") === "/var/root"`), but since `"~root".indexOf("/")` is
`-1`, the kept "remainder" `slice(-1)` is the last character `"t"`, so the
code returns `join("/var/root", "t") = "/var/root/t"`.  With a slash present
the substitution works as claimed; a not-found user falls through to the
(normalized) input; and the unchanged-return is only up to normalization —
a trailing slash is stripped. -/
theorem c8_bug_eval :
    expandPath envTilde "~root" = .ok "/var/root/t" ∧
    expandPath envTilde "~root" ≠ .ok "/var/root" ∧
    expandPath envTilde "~root/x" = .ok "/var/root/x" ∧
    expandPath envTilde "~nobody" = .ok "~nobody" ∧
    expandPath envTilde "~nobody/" = .ok "~nobody" := by
  decide

end RFC
